import Mathlib

/-!
Verification of the figma-to-atomic-design pipeline core: the delimiter-based
response decoder (step-03 atom discovery, step-05 component generation), the
grouping/deduplication engine, the URL parser, and the orchestrator's
failure-propagation behaviour.

Strings are modelled at the `List Char` level; the JavaScript string
operations used by the source (`split`, `indexOf`, `substring`, `trim`,
regex scans) are embedded as executable functions on character lists.
Whitespace is modelled as the ASCII whitespace characters, which covers
every input the protocol produces.
-/

namespace FigmaToAtomic

/-- ASCII whitespace, modelling the characters matched by JavaScript `\s`
and removed by `String.prototype.trim` on the protocol's ASCII text. -/
def isWS (c : Char) : Bool :=
  c = ' ' || c = '\t' || c = '\n' || c = '\r'

/-- JS `String.prototype.trim`: remove whitespace from both ends. -/
def trimL (l : List Char) : List Char :=
  ((l.dropWhile isWS).reverse.dropWhile isWS).reverse

/-- JS `String.prototype.split(sep)` for a single-character separator:
split at every occurrence of `sep` (JS keeps empty pieces). -/
def jsSplit (sep : Char) : List Char → List (List Char)
  | [] => [[]]
  | c :: t =>
    if c = sep then [] :: jsSplit sep t
    else
      match jsSplit sep t with
      | [] => [[c]]
      | p :: ps => (c :: p) :: ps

/-- JS `String.prototype.indexOf(c)` for a character: index of the first
occurrence, `none` when absent (JS returns `-1`). -/
def jsIndexOfChar (c : Char) : List Char → Option Nat
  | [] => none
  | x :: t =>
    if x = c then some 0
    else (jsIndexOfChar c t).map (· + 1)

/-- First index at which `pat` occurs as a contiguous substring of `l`
(`String.prototype.indexOf(pat)` / regex literal search). -/
def findSub (pat : List Char) : List Char → Option Nat
  | [] => if pat = [] then some 0 else none
  | c :: t =>
    if pat.isPrefixOf (c :: t) then some 0
    else (findSub pat t).map (· + 1)

/-- JS `String.prototype.includes(pat)`. -/
def containsSub (pat l : List Char) : Bool :=
  (findSub pat l).isSome

example : trimL "  a b ".data = "a b".data := by decide
example : jsSplit '|' "a|b||c".data = ["a".data, "b".data, [], "c".data] := by decide
example : jsIndexOfChar ':' "id:10:20".data = some 2 := by decide
example : findSub "---S---".data "xx---S---y".data = some 2 := by decide

/-! ## List-mode protocol decoder

Embedded from `lib/steps/step-03-atom-discovery/script.ts` (`identifyAtoms`):
the parsing of Claude's delimiter-based response into element records.
-/

/-- An element record ("atom"): the three mandatory fields kept by
`identifyAtoms` and consumed by `groupAtomsByType` / later stages. -/
structure ElementRecord where
  id : String
  name : String
  type : String
deriving Repr, DecidableEq

/-- JS object field assignment `obj[key] = value`: overwrite in place when
the key exists, otherwise append (JS objects preserve insertion order). -/
def objSet (obj : List (String × String)) (k v : String) : List (String × String) :=
  if obj.any (fun p => p.1 = k) then
    obj.map (fun p => if p.1 = k then (k, v) else p)
  else obj ++ [(k, v)]

/-- JS object field read `obj[key]`. -/
def objGet (obj : List (String × String)) (k : String) : Option String :=
  (obj.find? (fun p => p.1 = k)).map (fun p => p.2)

/-- One `key:value` token of a pipe-delimited record line
(`identifyAtoms`, lines 145-153): split at the *first* colon
(`part.indexOf(':')`), require the colon not to be the leading character
(`colonIndex > 0`), trim both halves, and keep the pair only when both
are non-empty (`if (key && value)`). -/
def parsePart (part : List Char) : Option (String × String) :=
  match jsIndexOfChar ':' part with
  | none => none
  | some colonIndex =>
    if colonIndex > 0 then
      let key := trimL (part.take colonIndex)
      let value := trimL (part.drop (colonIndex + 1))
      if key ≠ [] ∧ value ≠ [] then some (⟨key⟩, ⟨value⟩) else none
    else none

/-- The component object built from one record line: split the line at every
`'|'` and fold the `key:value` tokens into a JS object
(`identifyAtoms`, lines 142-154). -/
def lineObject (trimmed : List Char) : List (String × String) :=
  (jsSplit '|' trimmed).foldl
    (fun obj part =>
      match parsePart part with
      | some (k, v) => objSet obj k v
      | none => obj)
    []

/-- Decode one record line: build the component object and validate the three
mandatory fields (`if (component.id && component.name && component.type)`,
lines 156-159). A line missing a mandatory key yields no record. -/
def parseAtomLine (trimmed : List Char) : Option ElementRecord :=
  let comp := lineObject trimmed
  match objGet comp "id", objGet comp "name", objGet comp "type" with
  | some i, some n, some t => some ⟨i, n, t⟩
  | _, _, _ => none

/-- The per-line step of the decoding loop (`for (const line of lines)`,
lines 136-164): skip lines that are blank after trimming or contain no
`'|'`; otherwise decode and append the record when the mandatory fields
are present, dropping the line when they are not. -/
def processLine (atoms : List ElementRecord) (line : List Char) : List ElementRecord :=
  let trimmed := trimL line
  if trimmed ≠ [] ∧ trimmed.contains '|' then
    match parseAtomLine trimmed with
    | some a => atoms ++ [a]
    | none => atoms
  else atoms

/-- Decode a batch of record lines: the filter
`.split('\n').filter(line => line.trim())` composed with the decoding
loop (lines 134-164). -/
def decodeLines (lines : List (List Char)) : List ElementRecord :=
  (lines.filter (fun l => trimL l ≠ [])).foldl processLine []

/-- The components-section match
of `content.match` against `---COMPONENTS---([\s\S]*?)---SUMMARY---` (line 131):
the capture runs from the first `---COMPONENTS---` marker to the first
`---SUMMARY---` marker after it; the match fails when either marker is
absent. -/
def componentsMatch (content : List Char) : Option (List Char) :=
  match findSub "---COMPONENTS---".data content with
  | none => none
  | some i =>
    let rest := content.drop (i + 16)
    match findSub "---SUMMARY---".data rest with
    | none => none
    | some j => some (rest.take j)

/-- The pure decoding performed by `identifyAtoms` on the Claude response
text (lines 127-178): extract the components section, trim it, split it
into non-blank lines, and decode each line; with no matched section the
atom list is empty. -/
def identifyAtomsParse (content : String) : List ElementRecord :=
  match componentsMatch content.data with
  | none => []
  | some captured =>
    decodeLines (jsSplit '\n' (trimL captured))

example :
    identifyAtomsParse "---COMPONENTS---\nid:2606:6342|name:input|type:input\n---SUMMARY---\nok" =
      [⟨"2606:6342", "input", "input"⟩] := by decide

example :
    identifyAtomsParse "---COMPONENTS---\nid:1|name:x|type:button\nid:2|name:y\n---SUMMARY---\n" =
      [⟨"1", "x", "button"⟩] := by decide

example : identifyAtomsParse "---COMPONENTS---\nid:1|name:x|type:button\n" = [] := by decide

/-! ## Grouping/deduplication engine

Embedded from `src/index.ts` (`FigmaToAtomic.groupAtomsByType`, lines
203-224). The insertion-ordered `Map<string, ComponentGroup>` is modelled
as a list of groups keyed by their `type` field.
-/

/-- An equivalence class of element records sharing a category. -/
structure ComponentGroup where
  type : String
  representative : ElementRecord
  instances : List ElementRecord
deriving Repr, DecidableEq

/-- One iteration of the grouping loop: when the category is new, insert a
group whose representative is the current atom and whose instance list is
empty (`componentGroups.set(...)`); then push the atom onto the group's
instances (`componentGroups.get(componentType)!.instances.push(atom)`). -/
def insertAtom (gs : List ComponentGroup) (atom : ElementRecord) : List ComponentGroup :=
  let gs' :=
    if gs.any (fun g => g.type = atom.type) then gs
    else gs ++ [{ type := atom.type, representative := atom, instances := [] }]
  gs'.map (fun g =>
    if g.type = atom.type then { g with instances := g.instances ++ [atom] } else g)

/-- Embedding of `groupAtomsByType`: fold the discovered atoms through the grouping loop;
the output order is the map's insertion order. -/
def groupAtomsByType (atoms : List ElementRecord) : List ComponentGroup :=
  atoms.foldl insertAtom []

/-- Category list in first-seen order: the key set of the insertion-ordered
map, used to state what `groupAtomsByType` produces. -/
def firstSeenTypes (types : List String) : List String :=
  types.foldl (fun acc t => if acc.any (fun x => x = t) then acc else acc ++ [t]) []

example :
    groupAtomsByType [⟨"1", "Button 1", "button"⟩, ⟨"2", "Button 2", "button"⟩] =
      [{ type := "button", representative := ⟨"1", "Button 1", "button"⟩,
         instances := [⟨"1", "Button 1", "button"⟩, ⟨"2", "Button 2", "button"⟩] }] := by decide

/-! ### Characterisation of the grouping loop -/

lemma map_id_of_mem {α : Type} (f : α → α) :
    ∀ l : List α, (∀ x ∈ l, f x = x) → l.map f = l
  | [], _ => rfl
  | x :: t, h => by
    rw [List.map_cons, h x (by simp),
      map_id_of_mem f t (fun y hy => h y (by simp [hy]))]

lemma firstSeenTypes_append_singleton (l : List String) (t : String) :
    firstSeenTypes (l ++ [t]) =
      if (firstSeenTypes l).any (fun x => x = t) then firstSeenTypes l
      else firstSeenTypes l ++ [t] := by
  unfold firstSeenTypes
  rw [List.foldl_append]
  rfl

lemma mem_foldl_firstSeen (l : List String) :
    ∀ acc x,
      x ∈ l.foldl (fun acc t => if acc.any (fun x => x = t) then acc else acc ++ [t]) acc ↔
        x ∈ acc ∨ x ∈ l := by
  induction l with
  | nil => simp
  | cons hd tl ih =>
    intro acc x
    simp only [List.foldl_cons]
    by_cases h : acc.any (fun x => x = hd) = true
    · rw [if_pos h, ih]
      simp only [List.any_eq_true, decide_eq_true_iff] at h
      obtain ⟨y, hy, rfl⟩ := h
      simp only [List.mem_cons]
      constructor
      · rintro (h' | h')
        · exact Or.inl h'
        · exact Or.inr (Or.inr h')
      · rintro (h' | rfl | h')
        · exact Or.inl h'
        · exact Or.inl hy
        · exact Or.inr h'
    · rw [if_neg h, ih]
      simp only [List.mem_append, List.mem_singleton, List.mem_cons]
      tauto

lemma mem_firstSeenTypes (l : List String) (x : String) :
    x ∈ firstSeenTypes l ↔ x ∈ l := by
  unfold firstSeenTypes
  rw [mem_foldl_firstSeen]
  simp

/-- The grouping invariant: after processing a prefix of the atom list, the
accumulated groups list the processed categories in first-seen order, each
group's instances are exactly the processed records of its category in
input order, and each representative is the first such record. -/
def GroupInv (processed : List ElementRecord) (gs : List ComponentGroup) : Prop :=
  gs.map (fun g => g.type) = firstSeenTypes (processed.map (fun a => a.type)) ∧
  ∀ g ∈ gs,
    g.instances = processed.filter (fun a => a.type = g.type) ∧
    (processed.filter (fun a => a.type = g.type)).head? = some g.representative

lemma insertAtom_of_not_mem {gs : List ComponentGroup} {a : ElementRecord}
    (h : gs.any (fun g => g.type = a.type) = false) :
    insertAtom gs a = gs ++ [{ type := a.type, representative := a, instances := [a] }] := by
  have hall : ∀ g ∈ gs, ¬ (g.type = a.type) := by
    intro g hg hcontra
    have : gs.any (fun g => g.type = a.type) = true :=
      List.any_eq_true.mpr ⟨g, hg, decide_eq_true hcontra⟩
    rw [h] at this
    exact Bool.false_ne_true this
  unfold insertAtom
  rw [if_neg (by simp [h]), List.map_append]
  congr 1
  · exact map_id_of_mem _ gs (fun g hg => by rw [if_neg (hall g hg)])
  · simp

lemma insertAtom_of_mem {gs : List ComponentGroup} {a : ElementRecord}
    (h : gs.any (fun g => g.type = a.type) = true) :
    insertAtom gs a =
      gs.map (fun g =>
        if g.type = a.type then { g with instances := g.instances ++ [a] } else g) := by
  unfold insertAtom
  rw [if_pos (by simp [h])]

lemma any_type_iff (gs : List ComponentGroup) (t : String) :
    gs.any (fun g => g.type = t) = true ↔ t ∈ gs.map (fun g => g.type) := by
  simp [List.any_eq_true]

lemma any_eq_self_iff (l : List String) (t : String) :
    l.any (fun x => x = t) = true ↔ t ∈ l := by
  simp [List.any_eq_true]

lemma groupInv_insert {p : List ElementRecord} {gs : List ComponentGroup}
    {a : ElementRecord} (h : GroupInv p gs) :
    GroupInv (p ++ [a]) (insertAtom gs a) := by
  obtain ⟨htypes, hgroups⟩ := h
  by_cases hmem : gs.any (fun g => g.type = a.type) = true
  · rw [insertAtom_of_mem hmem]
    have hseen : a.type ∈ firstSeenTypes (p.map (fun x => x.type)) := by
      rw [← htypes]
      exact (any_type_iff gs a.type).mp hmem
    constructor
    · rw [List.map_map]
      have hcomp :
          ((fun g : ComponentGroup => g.type) ∘ fun g =>
            if g.type = a.type then { g with instances := g.instances ++ [a] } else g) =
            fun g : ComponentGroup => g.type := by
        funext g
        by_cases hg : g.type = a.type <;> simp [hg]
      rw [hcomp, htypes, List.map_append, List.map_singleton,
        firstSeenTypes_append_singleton,
        if_pos ((any_eq_self_iff _ _).mpr hseen)]
    · intro g' hg'
      obtain ⟨g, hg, rfl⟩ := List.mem_map.mp hg'
      obtain ⟨hinst, hrep⟩ := hgroups g hg
      by_cases hgt : g.type = a.type
      · simp only [if_pos hgt]
        have hfa : [a].filter (fun x => x.type = g.type) = [a] := by
          simp [hgt.symm]
        refine ⟨?_, ?_⟩
        · show g.instances ++ [a] = (p ++ [a]).filter (fun x => x.type = g.type)
          rw [List.filter_append, hfa, hinst]
        · show ((p ++ [a]).filter (fun x => x.type = g.type)).head? = some g.representative
          rw [List.filter_append, hfa]
          rcases hfe : p.filter (fun x => x.type = g.type) with _ | ⟨x, xs⟩
          · rw [hfe] at hrep; simp at hrep
          · rw [hfe] at hrep
            simp only [List.head?_cons, Option.some.injEq] at hrep
            rw [hfe, List.cons_append, List.head?_cons, hrep]
      · simp only [if_neg hgt]
        have hne : ¬ (a.type = g.type) := fun hc => hgt hc.symm
        have hfa : [a].filter (fun x => x.type = g.type) = [] := by
          simp [hne]
        rw [List.filter_append, hfa, List.append_nil]
        exact ⟨hinst, hrep⟩
  · have hmem' : gs.any (fun g => g.type = a.type) = false :=
      Bool.not_eq_true _ ▸ Bool.of_not_eq_true hmem
    have hall : ∀ g ∈ gs, ¬ (g.type = a.type) := by
      intro g hg hcontra
      exact hmem (List.any_eq_true.mpr ⟨g, hg, decide_eq_true hcontra⟩)
    have hnotseen : a.type ∉ firstSeenTypes (p.map (fun x => x.type)) := by
      rw [← htypes]
      intro hc
      exact hmem ((any_type_iff gs a.type).mpr hc)
    have hnotp : a.type ∉ p.map (fun x => x.type) := by
      intro hc
      exact hnotseen ((mem_firstSeenTypes _ _).mpr hc)
    rw [insertAtom_of_not_mem hmem']
    constructor
    · have hl : (gs ++ [({ type := a.type, representative := a, instances := [a] } :
          ComponentGroup)]).map (fun g => g.type) =
          gs.map (fun g => g.type) ++ [a.type] := by simp
      have hr : (p ++ [a]).map (fun x => x.type) = p.map (fun x => x.type) ++ [a.type] := by
        simp
      rw [hl, htypes, hr, firstSeenTypes_append_singleton,
        if_neg (fun hc => hnotseen ((any_eq_self_iff _ _).mp hc))]
    · intro g' hg'
      rcases List.mem_append.mp hg' with hg | hg
      · obtain ⟨hinst, hrep⟩ := hgroups g' hg
        have hne : ¬ (a.type = g'.type) := fun hc => hall g' hg hc.symm
        have hfa : [a].filter (fun x => x.type = g'.type) = [] := by
          simp [hne]
        rw [List.filter_append, hfa, List.append_nil]
        exact ⟨hinst, hrep⟩
      · have hg'' : g' = { type := a.type, representative := a, instances := [a] } := by
          simpa using hg
        subst hg''
        have hfp : p.filter (fun x => x.type = a.type) = [] := by
          rw [List.filter_eq_nil_iff]
          intro x hx hc
          exact hnotp (List.mem_map.mpr ⟨x, hx, of_decide_eq_true hc⟩)
        have hfa : [a].filter (fun x => x.type = a.type) = [a] := by simp
        constructor
        · show [a] = (p ++ [a]).filter (fun x => x.type = a.type)
          rw [List.filter_append, hfp, hfa, List.nil_append]
        · show ((p ++ [a]).filter (fun x => x.type = a.type)).head? = some a
          rw [List.filter_append, hfp, hfa, List.nil_append, List.head?_cons]

lemma groupInv_foldl :
    ∀ (atoms p : List ElementRecord) (gs : List ComponentGroup),
      GroupInv p gs → GroupInv (p ++ atoms) (atoms.foldl insertAtom gs)
  | [], p, gs, h => by simpa using h
  | a :: rest, p, gs, h => by
    have step := groupInv_insert (a := a) h
    have := groupInv_foldl rest (p ++ [a]) (insertAtom gs a) step
    simpa [List.append_assoc] using this

lemma groupInv_nil : GroupInv [] [] := by
  constructor
  · rfl
  · intro g hg
    simp at hg

/-- The full characterisation of `groupAtomsByType`. -/
lemma groupAtomsByType_spec (atoms : List ElementRecord) :
    GroupInv atoms (groupAtomsByType atoms) := by
  have := groupInv_foldl atoms [] [] groupInv_nil
  simpa [groupAtomsByType] using this

lemma nodup_foldl_firstSeen :
    ∀ (l : List String) (acc : List String), acc.Nodup →
      (l.foldl (fun acc t => if acc.any (fun x => x = t) then acc else acc ++ [t]) acc).Nodup
  | [], _, h => h
  | t :: rest, acc, h => by
    simp only [List.foldl_cons]
    by_cases hmem : acc.any (fun x => x = t) = true
    · rw [if_pos hmem]
      exact nodup_foldl_firstSeen rest acc h
    · rw [if_neg hmem]
      refine nodup_foldl_firstSeen rest (acc ++ [t]) ?_
      rw [List.nodup_append]
      refine ⟨h, List.nodup_singleton t, ?_⟩
      intro x hx hx'
      have : x = t := by simpa using hx'
      subst this
      exact hmem ((any_eq_self_iff acc x).mpr hx)

lemma firstSeenTypes_nodup (l : List String) : (firstSeenTypes l).Nodup :=
  nodup_foldl_firstSeen l [] List.nodup_nil

/-! ### First-colon splitting -/

lemma jsIndexOfChar_append {c : Char} :
    ∀ (k v : List Char), c ∉ k → jsIndexOfChar c (k ++ c :: v) = some k.length
  | [], v, _ => by simp [jsIndexOfChar]
  | x :: t, v, h => by
    have hx : ¬ (x = c) := fun hc => h (hc ▸ List.mem_cons_self x t)
    have ih := jsIndexOfChar_append t v (fun hm => h (List.mem_cons_of_mem x hm))
    simp [jsIndexOfChar, hx, ih]

lemma trimL_nil : trimL [] = [] := rfl

/-- A `key:value` token splits at the first colon: for any key containing no
colon, everything after the key's colon — colons included — is the value. -/
lemma parsePart_split {k v : List Char}
    (hk : ':' ∉ k) (hkne : trimL k ≠ []) (hvne : trimL v ≠ []) :
    parsePart (k ++ ':' :: v) = some (⟨trimL k⟩, ⟨trimL v⟩) := by
  have hknil : k ≠ [] := by
    intro hc
    subst hc
    exact hkne trimL_nil
  unfold parsePart
  rw [jsIndexOfChar_append k v hk]
  have hpos : k.length > 0 := List.length_pos.mpr hknil
  simp only []
  rw [if_pos hpos]
  have htake : (k ++ ':' :: v).take k.length = k := List.take_left k (':' :: v)
  have hdrop : (k ++ ':' :: v).drop (k.length + 1) = v := by
    have : k ++ ':' :: v = (k ++ [':']) ++ v := by simp
    rw [this, show k.length + 1 = (k ++ [':']).length by simp]
    exact List.drop_left (k ++ [':']) v
  rw [htake, hdrop, if_pos ⟨hkne, hvne⟩]

/-! ## Generation-mode protocol decoder

Embedded from `lib/steps/step-05-component-generation/script.ts`
(`parseClaudeResponse`, `parseDelimiterFormat`, `parseJSONFormat`,
`extractSection`, `extractSimpleSection`, `parseColorMapping`).
The JavaScript regexes are modelled by executable scanners with the
leftmost-match and greedy/lazy backtracking semantics of the originals.
-/

/-- Leftmost regex scan: try the matcher at every start position, left to
right, and return the first success. -/
def scanMatch {α : Type} (f : List Char → Option α) : List Char → Option α
  | [] => f []
  | c :: t =>
    match f (c :: t) with
    | some r => some r
    | none => scanMatch f t

/-- Index of the last occurrence of `c` in `l`. -/
def lastIdxOf (c : Char) (l : List Char) : Option Nat :=
  (jsIndexOfChar c l.reverse).map (fun j => l.length - 1 - j)

/-- Match `MARKER\s*\n` at the head of `l` and return the remainder: the
greedy `\s*` followed by a mandatory `'\n'` consumes the whitespace run
after the marker up to and including its last newline; the match fails
when the marker is absent or no newline follows it. -/
def matchMarkerNewline (marker : List Char) (l : List Char) : Option (List Char) :=
  if marker.isPrefixOf l then
    let rest := l.drop marker.length
    let w := rest.takeWhile isWS
    match lastIdxOf '\n' w with
    | some k => some (rest.drop (k + 1))
    | none => none
  else none

/-- The lazy capture `([\s\S]*?)(?=END₁|END₂|$)`: the shortest prefix ending
where one of the end markers starts, or the whole remainder when none
occurs. -/
def captureUntil (ends : List (List Char)) : List Char → List Char
  | [] => []
  | c :: t =>
    if ends.any (fun e => e.isPrefixOf (c :: t)) then []
    else c :: captureUntil ends t

/-- Embedding of `extractSection(content, name, endMarkers)` (script.ts lines 562-566):
`content.match(new RegExp("---NAME---\\s*\\n([\\s\\S]*?)(?=---END---…|$)"))`,
returning the trimmed capture or the empty string. -/
def extractSection (content : String) (sectionName : String) (endMarkers : List String) : String :=
  let marker := ("---" ++ sectionName ++ "---").data
  let ends := endMarkers.map (fun e => ("---" ++ e ++ "---").data)
  match scanMatch (fun l => (matchMarkerNewline marker l).map (captureUntil ends)) content.data with
  | some body => ⟨trimL body⟩
  | none => ""

/-- Match `MARKER\s*\n([^\n-]+)` at the head of `l`: after the marker and its
whitespace-newline run, capture a non-empty run of characters that are
neither newline nor dash; fail when that run is empty. -/
def matchMarkerLineCapture (marker : List Char) (l : List Char) : Option (List Char) :=
  match matchMarkerNewline marker l with
  | some rest =>
    let cap := rest.takeWhile (fun c => ¬ (c = '\n' ∨ c = '-'))
    if cap = [] then none else some cap
  | none => none

/-- Embedding of `extractSimpleSection(content, name)` (script.ts lines 568-571):
`content.match(new RegExp("---NAME---\\s*\\n([^\\n-]+)"))`, trimmed, or
the empty string. -/
def extractSimpleSection (content : String) (sectionName : String) : String :=
  let marker := ("---" ++ sectionName ++ "---").data
  match scanMatch (matchMarkerLineCapture marker) content.data with
  | some cap => ⟨trimL cap⟩
  | none => ""

/-- The `---SKIP---` flag (script.ts lines 521-522):
`content.match` against `---SKIP---\s*\n([^\n-]+)`, then
`skipMatch[1].trim().toLowerCase() === 'true'`; absent match means no
skip. -/
def shouldSkip (content : String) : Bool :=
  match scanMatch (matchMarkerLineCapture "---SKIP---".data) content.data with
  | some cap => (trimL cap).map Char.toLower = "true".data
  | none => false

/-- The pattern `key:\s*([^\n]+)` applied to the mapping text: after the key, the greedy
`\s*` backs off until at least one non-newline character can be captured;
the capture is the run of non-newline characters from that point. -/
def wsStarLineCapture : Nat → List Char → Option (List Char)
  | k, rest =>
    let r := rest.drop k
    match r with
    | [] =>
      match k with
      | 0 => none
      | k' + 1 => wsStarLineCapture k' rest
    | c :: _ =>
      if c = '\n' then
        match k with
        | 0 => none
        | k' + 1 => wsStarLineCapture k' rest
      else some (r.takeWhile (fun c => ¬ (c = '\n')))

/-- Scan for `key:\s*([^\n]+)` (the three mapping-line regexes in
`parseColorMapping`, script.ts lines 578-580). -/
def matchKeyLine (key : List Char) (l : List Char) : Option (List Char) :=
  if key.isPrefixOf l then
    let rest := l.drop key.length
    wsStarLineCapture (rest.takeWhile isWS).length rest
  else none

/-- The mapping record assembled by `parseColorMapping` (lines 573-587). -/
structure ColorMapping where
  figmaColor : String
  themeVariable : String
  usageReason : String
deriving Repr, DecidableEq

/-- Embedding of `parseColorMapping(content)` (script.ts lines 573-587): extract the
`---MAPPING---` section and read the three `key: value` lines; a missing
section yields the empty object, a missing line the empty string. -/
def parseColorMapping (content : String) : Option ColorMapping :=
  let marker := "---MAPPING---".data
  let ends := ["---EXAMPLE---".data, "---NOTES---".data]
  match scanMatch (fun l => (matchMarkerNewline marker l).map (captureUntil ends)) content.data with
  | none => none
  | some body =>
    let mappingText := trimL body
    let get := fun (key : String) =>
      match scanMatch (matchKeyLine key.data) mappingText with
      | some cap => (⟨trimL cap⟩ : String)
      | none => ""
    some { figmaColor := get "figmaColor:", themeVariable := get "themeVariable:",
           usageReason := get "usageReason:" }

/-- The result object of generation-mode decoding
(`ComponentGenerationResult`, script.ts lines 348-357). Every field of the
JS object is optional at the decoding boundary: the JSON fallback returns
whatever object the reply contained. -/
structure ComponentGenerationResult where
  skipImplementation : Option Bool
  reason : Option String
  componentCode : Option String
  updatedCSS : Option String
  colorMapping : Option ColorMapping
  usageExample : Option String
  notes : Option String
deriving Repr, DecidableEq

/-- Embedding of `parseDelimiterFormat(content)` (script.ts lines 519-546):
when the skip flag reads `true`, a skip record with a fixed reason;
otherwise a non-skip record carrying the extracted sections, with
`updatedCSS` converted to `undefined` when empty (`updatedCSS || undefined`). -/
def parseDelimiterFormat (content : String) : ComponentGenerationResult :=
  if shouldSkip content then
    { skipImplementation := some true
      reason := some "Skipped as requested in response"
      componentCode := none, updatedCSS := none, colorMapping := none
      usageExample := none, notes := none }
  else
    let componentCode := extractSection content "COMPONENT" ["CSS", "MAPPING"]
    let updatedCSS := extractSection content "CSS" ["MAPPING", "EXAMPLE"]
    { skipImplementation := some false
      reason := none
      componentCode := some componentCode
      updatedCSS := if updatedCSS = "" then none else some updatedCSS
      colorMapping := parseColorMapping content
      usageExample := some (extractSimpleSection content "EXAMPLE")
      notes := some (extractSimpleSection content "NOTES") }

/-- Embedding of `parseJSONFormat(content)` (script.ts lines 548-560): find a
fenced ```json code block and hand its trimmed body to the platform JSON
parser, modelled as an oracle `jsonParse` because `JSON.parse` is outside
the repository; the parsed object is returned unvalidated. -/
def parseJSONFormat (jsonParse : String → Option ComponentGenerationResult)
    (content : String) : Option ComponentGenerationResult :=
  match findSub "```json".data content.data with
  | none => none
  | some i =>
    let rest := content.data.drop (i + 7)
    match findSub "```".data rest with
    | none => none
    | some j => jsonParse (⟨trimL (rest.take j)⟩ : String)

/-- Embedding of `parseClaudeResponse(content)` (script.ts lines 506-517):
use the delimiter grammar when either `---SKIP---` or `---COMPONENT---`
occurs anywhere in the reply, else fall back to the JSON grammar. -/
def parseClaudeResponse (jsonParse : String → Option ComponentGenerationResult)
    (content : String) : Option ComponentGenerationResult :=
  if containsSub "---SKIP---".data content.data ||
      containsSub "---COMPONENT---".data content.data then
    some (parseDelimiterFormat content)
  else
    parseJSONFormat jsonParse content

/-- Embedding of `generateComponentWithClaude` (script.ts lines 422-468),
with the network call's outcome supplied as an `Except`: a thrown error
(network failure, non-2xx status) or an unparseable reply is caught and
converted into the skip fallback `{skipImplementation: true, reason}`. -/
def generateComponentWithClaude (jsonParse : String → Option ComponentGenerationResult)
    (claudeOutcome : Except String String) : ComponentGenerationResult :=
  match claudeOutcome with
  | .error e =>
    { skipImplementation := some true
      reason := some ("AI generation failed: " ++ e)
      componentCode := none, updatedCSS := none, colorMapping := none
      usageExample := none, notes := none }
  | .ok content =>
    match parseClaudeResponse jsonParse content with
    | some parsedResult => parsedResult
    | none =>
      { skipImplementation := some true
        reason := some "AI generation failed: No valid response format found in Claude response"
        componentCode := none, updatedCSS := none, colorMapping := none
        usageExample := none, notes := none }

example : shouldSkip "---SKIP---\ntrue\n\n---COMPONENT---\ncode" = true := by decide
example : shouldSkip "---SKIP---\nfalse\n\n---COMPONENT---\ncode" = false := by decide
example :
    extractSection "---COMPONENT---\nconst A = 1\n\n---CSS---\nbody {}\n" "COMPONENT"
      ["CSS", "MAPPING"] = "const A = 1" := by decide
example :
    extractSection "---COMPONENT---\nconst A = 1\n" "COMPONENT" ["CSS", "MAPPING"] =
      "const A = 1" := by decide
example :
    (parseDelimiterFormat "---SKIP---\nfalse").componentCode = some "" := by decide

/-! ## URL processing

Embedded from `lib/steps/step-01-url-processing/script.ts`. The platform
`new URL(...)` constructor is external; its output is modelled as the
already-decomposed pair of the path string and the optional `node-id`
query parameter.
-/

/-- Output of the platform URL constructor, as consumed by `parseUrl`:
`urlObj.pathname` and `urlObj.searchParams.get('node-id')`. -/
structure UrlParts where
  pathname : String
  nodeIdParam : Option String
deriving Repr, DecidableEq

/-- JS `String.prototype.replace(pat, rep)` with single-character string
arguments: replace only the first occurrence. -/
def replaceFirstChar (pat rep : Char) : List Char → List Char
  | [] => []
  | c :: t => if c = pat then rep :: t else c :: replaceFirstChar pat rep t

/-- The parsed reference: the pair extracted by `parseUrl`. -/
structure ParsedUrl where
  nodeId : String
  fileKey : String
deriving Repr, DecidableEq

/-- The error message of `parseUrl`'s catch-all handler (script.ts line 14);
both the explicit `throw` and any platform error surface as this
message. -/
def parseUrlError : String :=
  "Could not parse Figma URL - ensure format: https://figma.com/design/FILE_KEY/NAME?node-id=X-Y"

/-- Embedding of `parseUrl(url)` (script.ts lines 1-16): the node id is the
`node-id` query parameter with its first `'-'` replaced by `':'`
(JS `replace` with a string pattern replaces the first occurrence only),
and the file key is `pathname.split('/')[2]`; a missing or empty node id
or file key raises the catch-all error. -/
def parseUrl (u : UrlParts) : Except String ParsedUrl :=
  let nodeId := u.nodeIdParam.map (fun s => (⟨replaceFirstChar '-' ':' s.data⟩ : String))
  let pathParts := jsSplit '/' u.pathname.data
  let fileKey := pathParts.get? 2
  match nodeId, fileKey with
  | some nid, some fk =>
    if nid = "" ∨ fk = [] then .error parseUrlError
    else .ok { nodeId := nid, fileKey := ⟨fk⟩ }
  | _, _ => .error parseUrlError

example :
    parseUrl { pathname := "/design/abc123/My-File", nodeIdParam := some "1-2-3" } =
      .ok { nodeId := "1:2-3", fileKey := "abc123" } := by rfl

/-- Embedding of `validateApiKeys(figmaToken, claudeApiKey)` (script.ts
lines 18-26): missing (empty) credentials throw. -/
def validateApiKeys (figmaToken claudeApiKey : String) : Except String Unit :=
  if figmaToken = "" then .error "FIGMA_ACCESS_TOKEN required in .env file"
  else if claudeApiKey = "" then .error "ANTHROPIC_API_KEY required in .env file"
  else .ok ()

/-! ## Orchestrator

Embedded from `src/index.ts` (`FigmaToAtomic.analyze` and its helpers) and
`lib/steps/step-02-section-identification/script.ts`. Network calls and
the platform JSON parser are modelled by a `World` of per-run outcomes;
the control flow — which stages throw, which catch, and what each yields —
is the repository's.
-/

/-- A node of the design document returned by the Figma API. -/
structure FigmaNode where
  id : String
  name : Option String
  children : List FigmaNode
deriving Repr

/-- The outcome of one `fetch` against the Figma nodes endpoint, as consumed
by `getFigmaData`: the HTTP status and the looked-up
`data.nodes[nodeId]?.document`. -/
structure FigmaResponse where
  ok : Bool
  status : Nat
  statusText : String
  nodeDoc : Option FigmaNode
deriving Repr

/-- A section record produced by section identification. -/
structure Section where
  id : String
  name : String
  type : String
deriving Repr, DecidableEq

/-- Embedding of `getFigmaData` (step-02 script.ts lines 2-23): throw on a
non-2xx response, throw when the node is missing from the reply, else
return the node document. -/
def getFigmaData (resp : FigmaResponse) (nodeId : String) : Except String FigmaNode :=
  if resp.ok = false then
    .error ("Figma API error: " ++ toString resp.status ++ " " ++ resp.statusText)
  else
    match resp.nodeDoc with
    | none => .error ("Node " ++ nodeId ++ " not found")
    | some nodeData => .ok nodeData

/-- Embedding of `basicSectionAnalysis(pageData)` (step-02 script.ts lines
79-97): the non-AI fallback classification of the page's children. -/
def basicSectionAnalysis (pageData : FigmaNode) : List Section :=
  pageData.children.enum.map (fun p =>
    let index := p.1
    let child := p.2
    let cleaned := (child.name.map (fun n =>
      (⟨trimL (n.data.map (fun c => if c = '_' ∨ c = '-' then ' ' else c))⟩ : String))).getD ""
    let name := if cleaned = "" then "Section " ++ toString (index + 1) else cleaned
    let lowerName : List Char := name.data.map Char.toLower
    let isFirst := index = 0
    let isLast := index = pageData.children.length - 1
    let type :=
      if isFirst ∧ containsSub "header".data lowerName then "header"
      else if isLast ∧ containsSub "footer".data lowerName then "footer"
      else if containsSub "hero".data lowerName ∨ containsSub "banner".data lowerName then "hero"
      else if containsSub "nav".data lowerName then "navigation"
      else if containsSub "content".data lowerName ∨ containsSub "product".data lowerName then
        "content"
      else "section"
    { id := child.id, name := name, type := type })

/-- The bracket-span match `content.match(new RegExp("\\[.*\\]"))` used by
`identifySections` (step-02 script.ts line 66): the dot does not cross
newlines, so the span runs from the first `'['` that has a `']'` later on
its own line, greedily to the last such `']'`. -/
def bracketSpanAt (l : List Char) : Option (List Char) :=
  match l with
  | '[' :: t =>
    let lineRest := t.takeWhile (fun c => ¬ (c = '\n'))
    match lastIdxOf ']' lineRest with
    | some k => some ('[' :: lineRest.take (k + 1))
    | none => none
  | _ => none

/-- Leftmost bracket-span match over the whole reply. -/
def bracketMatch (content : List Char) : Option (List Char) :=
  scanMatch bracketSpanAt content

/-- Per-run outcomes of the external collaborators: network replies and the
platform JSON parser, one field per call site of the pipeline. -/
structure World where
  figmaToken : String
  claudeApiKey : String
  figmaStep2 : FigmaResponse
  claudeStep2 : Except String String
  sectionsJson : String → Option (List Section)
  figmaStep3 : Section → FigmaResponse
  claudeStep3 : Section → Except String String
  extractOutcome : ElementRecord → Option (List String)

/-- Embedding of `identifySections(pageData, claudeApiKey)` (step-02
script.ts lines 25-77): a failed or non-2xx completion call throws; a
parsed JSON bracket span is returned when the platform parser accepts it;
otherwise — no span, or a parse error — the non-AI fallback analysis is
returned. -/
def identifySections (w : World) (pageData : FigmaNode) : Except String (List Section) :=
  match w.claudeStep2 with
  | .error e => .error e
  | .ok content =>
    match bracketMatch content.data with
    | some span =>
      match w.sectionsJson (⟨span⟩ : String) with
      | some sections => .ok sections
      | none => .ok (basicSectionAnalysis pageData)
    | none => .ok (basicSectionAnalysis pageData)

/-- Embedding of `discoverAtoms` (step-03 script.ts lines 37-68) composed
with `identifyAtoms` (lines 70-184): every failure — the section fetch,
the completion call, a reply with no decodable section — is caught and
yields the empty atom list. -/
def discoverAtoms (w : World) (s : Section) : List ElementRecord :=
  match getFigmaData (w.figmaStep3 s) s.id with
  | .error _ => []
  | .ok _sectionData =>
    match w.claudeStep3 s with
    | .error _ => []
    | .ok content => identifyAtomsParse content

/-- Embedding of `capitalizeComponentType` (index.ts lines 194-196). -/
def capitalizeComponentType (t : String) : String :=
  match t.data with
  | [] => ""
  | c :: rest => ⟨Char.toUpper c :: rest⟩

/-- The summary record built by `createProcessedComponent` (index.ts lines
180-192). -/
structure ProcessedComponent where
  name : String
  type : String
  componentName : String
  variants : List String
  instanceCount : Nat
deriving Repr, DecidableEq

/-- Embedding of `createProcessedComponent` (index.ts lines 180-192), with
the extraction payload's variant list carried as `variants`. -/
def createProcessedComponent (componentGroup : ComponentGroup) (atom : ElementRecord)
    (variants : List String) : ProcessedComponent :=
  { name := componentGroup.type
    type := atom.type
    componentName := capitalizeComponentType componentGroup.type
    variants := variants
    instanceCount := componentGroup.instances.length }

/-- Trace of one `generateComponents` loop (index.ts lines 123-157): the
atoms sent to token/variant extraction, the atoms whose extraction
succeeded and were therefore sent to component generation, and the
processed-component summaries, all in loop order. -/
structure GenerationTrace where
  extractionCalls : List ElementRecord
  generationCalls : List ElementRecord
  processedComponents : List ProcessedComponent
deriving Repr, DecidableEq

/-- Embedding of `generateComponents` (index.ts lines 123-157): for each
group, in order, call extraction on the group's representative; when it
yields data, run generation for that representative and record the
processed component; when it yields `null`, log and continue. -/
def generateComponents (w : World) (componentGroups : List ComponentGroup) : GenerationTrace :=
  componentGroups.foldl
    (fun acc componentGroup =>
      let representativeAtom := componentGroup.representative
      match w.extractOutcome representativeAtom with
      | some variants =>
        { extractionCalls := acc.extractionCalls ++ [representativeAtom]
          generationCalls := acc.generationCalls ++ [representativeAtom]
          processedComponents := acc.processedComponents ++
            [createProcessedComponent componentGroup representativeAtom variants] }
      | none =>
        { acc with extractionCalls := acc.extractionCalls ++ [representativeAtom] })
    { extractionCalls := [], generationCalls := [], processedComponents := [] }

/-- The observable outcome of one pipeline run. -/
structure RunReport where
  sections : List Section
  processedSection : Option Section
  discoveredAtoms : List ElementRecord
  componentGroups : List ComponentGroup
  trace : GenerationTrace
deriving Repr

/-- Embedding of `processAtomicComponents` (index.ts lines 108-121):
discover atoms in the first section, group them, and run the
per-group extraction/generation loop. -/
def processAtomicComponents (w : World) (firstSection : Section) : RunReport :=
  let discoveredAtoms := discoverAtoms w firstSection
  let componentGroups := groupAtomsByType discoveredAtoms
  { sections := []
    processedSection := some firstSection
    discoveredAtoms := discoveredAtoms
    componentGroups := componentGroups
    trace := generateComponents w componentGroups }

/-- Embedding of `FigmaToAtomic.analyze(figmaUrl)` (index.ts lines 68-82)
with its helpers `processUrlAndValidateAPIs` (84-92) and
`identifyFigmaSections` (94-106): credential validation and URL parsing
run first; the step-2 fetch and section identification run *outside* any
catch that would recover them, so their errors propagate to `analyze`'s
catch, which rethrows as a fatal `Analysis failed:` error. Only when
sections were identified does the (fully recovering) atom pipeline run on
the first section. This definition is the body of `analyze`'s try block:
each stage's thrown error propagates to the next enclosing handler, which
for steps 1-2 is only `analyze`'s own catch. -/
def analyzeTry (w : World) (figmaUrl : UrlParts) : Except String RunReport :=
  match validateApiKeys w.figmaToken w.claudeApiKey with
  | .error e => .error e
  | .ok _ =>
    match parseUrl figmaUrl with
    | .error e => .error e
    | .ok parsed =>
      match getFigmaData w.figmaStep2 parsed.nodeId with
      | .error e => .error e
      | .ok pageData =>
        match identifySections w pageData with
        | .error e => .error e
        | .ok sections =>
          match sections with
          | [] =>
            .ok { sections := sections, processedSection := none, discoveredAtoms := []
                  componentGroups := [], trace := ⟨[], [], []⟩ }
          | firstSection :: _ =>
            .ok { processAtomicComponents w firstSection with sections := sections }

def analyze (w : World) (figmaUrl : UrlParts) : Except String RunReport :=
  match analyzeTry w figmaUrl with
  | .ok report => .ok report
  | .error e => .error ("Analysis failed: " ++ e)

/-! ## Claim theorems -/

/-- C1: every `key:value` token of a list-mode record line is split at the
first colon only, so a value may itself contain colons; in particular the
line `id:10:20|name:x|type:button` decodes to the record
`{id: "10:20", name: "x", type: "button"}`. -/
theorem c1_token_splits_at_first_colon :
    (∀ k v : List Char, ':' ∉ k → trimL k ≠ [] → trimL v ≠ [] →
      parsePart (k ++ ':' :: v) = some (⟨trimL k⟩, ⟨trimL v⟩)) ∧
    decodeLines ["id:10:20|name:x|type:button".data] =
      [{ id := "10:20", name := "x", type := "button" }] :=
  ⟨fun _ _ hk h1 h2 => parsePart_split hk h1 h2, by decide⟩

/-- Witness for C1: the general token-splitting statement applied to the
concrete token `id:10:20`. -/
theorem c1_token_splits_at_first_colon_witness :
    parsePart "id:10:20".data = some ("id", "10:20") := by
  have h := c1_token_splits_at_first_colon.1 "id".data "10:20".data
    (by decide) (by decide) (by decide)
  have he : "id".data ++ ':' :: "10:20".data = "id:10:20".data := by decide
  rw [he] at h
  rw [h]
  decide

lemma findSub_drop_none {pat : List Char} :
    ∀ (l : List Char) (i : Nat), findSub pat l = none → findSub pat (l.drop i) = none
  | _, 0, h => by simpa using h
  | [], _ + 1, h => by simpa using h
  | c :: t, i + 1, h => by
    have ht : findSub pat t = none := by
      unfold findSub at h
      by_cases hp : pat.isPrefixOf (c :: t) = true
      · rw [if_pos hp] at h
        exact absurd h (by simp)
      · rw [if_neg hp] at h
        simpa using h
    simpa using findSub_drop_none t i ht

/-- With no `---SUMMARY---` marker anywhere in the reply, the list-mode
decoder matches no components section and decodes nothing. -/
lemma identifyAtomsParse_no_summary {content : String}
    (h : containsSub "---SUMMARY---".data content.data = false) :
    identifyAtomsParse content = [] := by
  have hnone : findSub "---SUMMARY---".data content.data = none := by
    unfold containsSub at h
    cases hf : findSub "---SUMMARY---".data content.data with
    | none => rfl
    | some j => rw [hf] at h; simp at h
  unfold identifyAtomsParse componentsMatch
  cases hc : findSub "---COMPONENTS---".data content.data with
  | none => rfl
  | some i =>
    have hrest : findSub "---SUMMARY---".data (content.data.drop (i + 16)) = none :=
      findSub_drop_none content.data (i + 16) hnone
    simp [hrest]

/-- C2 counterexample: a list-mode reply with a `---COMPONENTS---` marker
followed by a well-formed record line but no further marker decodes to
*zero* records — the line is not decoded, contrary to the claim. -/
theorem c2_missing_summary_counterexample :
    identifyAtomsParse "---COMPONENTS---\nid:1:2|name:x|type:button" = [] ∧
    parseAtomLine (trimL "id:1:2|name:x|type:button".data) =
      some { id := "1:2", name := "x", type := "button" } :=
  ⟨by decide, by decide⟩

/-- C2 amended: in generation mode a section's body runs to the next listed
end marker or to end of input, but in list mode the components section is
matched only together with its closing `---SUMMARY---` marker: a reply
with no `---SUMMARY---` decodes zero records, and the record lines between
the two markers decode when both are present. -/
theorem c2_section_requires_closing_marker :
    (∀ content : String, containsSub "---SUMMARY---".data content.data = false →
      identifyAtomsParse content = []) ∧
    identifyAtomsParse "---COMPONENTS---\nid:1|name:x|type:button\n---SUMMARY---\nend" =
      [{ id := "1", name := "x", type := "button" }] ∧
    extractSection "---COMPONENT---\nconst Button = 1\n" "COMPONENT" ["CSS", "MAPPING"] =
      "const Button = 1" :=
  ⟨fun _ h => identifyAtomsParse_no_summary h, by decide, by decide⟩

/-- Witness for the amended C2: the no-closing-marker statement applied to
the concrete reply of the counterexample. -/
theorem c2_section_requires_closing_marker_witness :
    identifyAtomsParse "---COMPONENTS---\nid:9|name:y|type:input" = [] :=
  c2_section_requires_closing_marker.1 _ (by decide)

/-- With no `---COMPONENTS---` marker in the reply, the list-mode decoder
decodes nothing: it has no other grammar. -/
lemma identifyAtomsParse_no_components {content : String}
    (h : containsSub "---COMPONENTS---".data content.data = false) :
    identifyAtomsParse content = [] := by
  have hnone : findSub "---COMPONENTS---".data content.data = none := by
    unfold containsSub at h
    cases hf : findSub "---COMPONENTS---".data content.data with
    | none => rfl
    | some j => rw [hf] at h; simp at h
  unfold identifyAtomsParse componentsMatch
  simp [hnone]

/-- C3 counterexample: a list-mode reply with zero section markers and a
valid JSON array embedded in surrounding prose decodes to the *empty*
record list — no JSON fallback runs in list mode. -/
theorem c3_no_json_fallback_counterexample :
    containsSub "---".data
      "Here are the atoms: [\x7b\"id\": \"1\", \"name\": \"x\", \"type\": \"button\"\x7d]".data =
      false ∧
    identifyAtomsParse
      "Here are the atoms: [\x7b\"id\": \"1\", \"name\": \"x\", \"type\": \"button\"\x7d]" = [] :=
  ⟨by decide, by decide⟩

/-- C3 amended: only the generation-mode decoder falls back to JSON when no
delimiter markers are present, and only to a fenced ```json code block;
the list-mode decoder has no JSON fallback and yields an empty record
list whenever its `---COMPONENTS---` marker is absent, even when a valid
JSON array is embedded in the prose. -/
theorem c3_fallback_scope :
    (∀ content : String, containsSub "---COMPONENTS---".data content.data = false →
      identifyAtomsParse content = []) ∧
    (∀ (jsonParse : String → Option ComponentGenerationResult) (content : String),
      containsSub "---SKIP---".data content.data = false →
      containsSub "---COMPONENT---".data content.data = false →
      parseClaudeResponse jsonParse content = parseJSONFormat jsonParse content) ∧
    (∀ (jsonParse : String → Option ComponentGenerationResult) (content : String),
      findSub "```json".data content.data = none →
      parseJSONFormat jsonParse content = none) := by
  refine ⟨fun _ h => identifyAtomsParse_no_components h, ?_, ?_⟩
  · intro jsonParse content h1 h2
    unfold parseClaudeResponse
    rw [h1, h2]
    rfl
  · intro jsonParse content h
    unfold parseJSONFormat
    rw [h]

/-- Witness for the amended C3: the list-mode no-fallback statement applied
to a concrete markerless reply containing a JSON array. -/
theorem c3_fallback_scope_witness :
    identifyAtomsParse "results: [1, 2, 3]" = [] :=
  c3_fallback_scope.1 _ (by decide)

/-! ### Record-line round trips (infrastructure for C4 and C6) -/

/-- A protocol value with no whitespace and no pipe character: the shape the
step-03 prompt requests (`id:2606:6342|name:input|type:input`). -/
def PlainValue (v : String) : Prop :=
  v.data ≠ [] ∧ (∀ c ∈ v.data, isWS c = false) ∧ '|' ∉ v.data

instance (v : String) : Decidable (PlainValue v) := by
  unfold PlainValue
  infer_instance

/-- One rendered `key:value` token. -/
def keyTok (key v : String) : List Char :=
  key.data ++ ':' :: v.data

/-- A well-formed record line carrying the three mandatory keys. -/
def renderLine (r : ElementRecord) : List Char :=
  keyTok "id" r.id ++ '|' :: (keyTok "name" r.name ++ '|' :: keyTok "type" r.type)

/-- A malformed record line lacking the mandatory `type` key. -/
def malformedLine (i n : String) : List Char :=
  keyTok "id" i ++ '|' :: keyTok "name" n

lemma dropWhile_of_all_neg {p : Char → Bool} :
    ∀ {x : List Char}, (∀ c ∈ x, p c = false) → x.dropWhile p = x
  | [], _ => rfl
  | c :: t, h => by
    rw [List.dropWhile_cons, if_neg (by simp [h c (List.mem_cons_self c t)])]

lemma trimL_of_all_neg {x : List Char} (h : ∀ c ∈ x, isWS c = false) : trimL x = x := by
  unfold trimL
  rw [dropWhile_of_all_neg h,
    dropWhile_of_all_neg (fun c hc => h c (List.mem_reverse.mp hc)),
    List.reverse_reverse]

lemma jsSplit_cons (sep c : Char) (t : List Char) :
    jsSplit sep (c :: t) =
      if c = sep then [] :: jsSplit sep t
      else
        match jsSplit sep t with
        | [] => [[c]]
        | p :: ps => (c :: p) :: ps := rfl

lemma jsSplit_no_sep {c : Char} : ∀ {x : List Char}, c ∉ x → jsSplit c x = [x]
  | [], _ => rfl
  | a :: t, h => by
    have ha : ¬ (a = c) := fun hc => h (hc ▸ List.mem_cons_self a t)
    have ih := jsSplit_no_sep (fun hm => h (List.mem_cons_of_mem a hm))
    rw [jsSplit_cons, if_neg ha, ih]

lemma jsSplit_append_sep {c : Char} :
    ∀ {x : List Char} (y : List Char), c ∉ x → jsSplit c (x ++ c :: y) = x :: jsSplit c y
  | [], y, _ => by
    rw [List.nil_append, jsSplit_cons, if_pos rfl]
  | a :: t, y, h => by
    have ha : ¬ (a = c) := fun hc => h (hc ▸ List.mem_cons_self a t)
    have ih := jsSplit_append_sep (x := t) y (fun hm => h (List.mem_cons_of_mem a hm))
    rw [List.cons_append, jsSplit_cons, if_neg ha, ih]

lemma pipe_not_mem_keyTok {key v : String}
    (hkey : '|' ∉ key.data) (hv : '|' ∉ v.data) : '|' ∉ keyTok key v := by
  intro hc
  rcases List.mem_append.mp hc with h | h
  · exact hkey h
  · rcases List.mem_cons.mp h with h | h
    · exact absurd h (by decide)
    · exact hv h

/-- Splitting a well-formed record line at the pipes yields its three
tokens. -/
lemma jsSplit_renderLine {r : ElementRecord}
    (hi : '|' ∉ r.id.data) (hn : '|' ∉ r.name.data) (ht : '|' ∉ r.type.data) :
    jsSplit '|' (renderLine r) =
      [keyTok "id" r.id, keyTok "name" r.name, keyTok "type" r.type] := by
  unfold renderLine
  rw [jsSplit_append_sep _ (pipe_not_mem_keyTok (by decide) hi),
    jsSplit_append_sep _ (pipe_not_mem_keyTok (by decide) hn),
    jsSplit_no_sep (pipe_not_mem_keyTok (by decide) ht)]

lemma parsePart_keyTok (key v : String)
    (hkey : ':' ∉ key.data) (hkeyne : trimL key.data ≠ [])
    (hkeyfix : trimL key.data = key.data)
    (hv : PlainValue v) :
    parsePart (keyTok key v) = some (key, v) := by
  have hvfix : trimL v.data = v.data := trimL_of_all_neg hv.2.1
  have hvne : trimL v.data ≠ [] := by rw [hvfix]; exact hv.1
  have h := parsePart_split (k := key.data) (v := v.data) hkey hkeyne hvne
  rw [keyTok, h, hkeyfix, hvfix]

lemma lineObject_renderLine {r : ElementRecord}
    (hi : PlainValue r.id) (hn : PlainValue r.name) (ht : PlainValue r.type) :
    lineObject (renderLine r) = [("id", r.id), ("name", r.name), ("type", r.type)] := by
  unfold lineObject
  rw [jsSplit_renderLine hi.2.2 hn.2.2 ht.2.2]
  have pid := parsePart_keyTok "id" r.id (by decide) (by decide) (by decide) hi
  have pnm := parsePart_keyTok "name" r.name (by decide) (by decide) (by decide) hn
  have pty := parsePart_keyTok "type" r.type (by decide) (by decide) (by decide) ht
  have e1 : ¬ (("id" : String) = "name") := by decide
  have e2 : ¬ (("id" : String) = "type") := by decide
  have e3 : ¬ (("name" : String) = "type") := by decide
  simp only [List.foldl_cons, List.foldl_nil, pid, pnm, pty]
  simp [objSet, e1, e2, e3]

lemma parseAtomLine_renderLine {r : ElementRecord}
    (hi : PlainValue r.id) (hn : PlainValue r.name) (ht : PlainValue r.type) :
    parseAtomLine (renderLine r) = some r := by
  unfold parseAtomLine
  rw [lineObject_renderLine hi hn ht]
  have e1 : ¬ (("id" : String) = "name") := by decide
  have e2 : ¬ (("id" : String) = "type") := by decide
  have e3 : ¬ (("name" : String) = "type") := by decide
  simp [objGet, List.find?, e1, e2, e3]

lemma lineObject_malformed {i n : String}
    (hi : PlainValue i) (hn : PlainValue n) :
    lineObject (malformedLine i n) = [("id", i), ("name", n)] := by
  unfold lineObject malformedLine
  rw [jsSplit_append_sep _ (pipe_not_mem_keyTok (by decide) hi.2.2),
    jsSplit_no_sep (pipe_not_mem_keyTok (by decide) hn.2.2)]
  have pid := parsePart_keyTok "id" i (by decide) (by decide) (by decide) hi
  have pnm := parsePart_keyTok "name" n (by decide) (by decide) (by decide) hn
  have e1 : ¬ (("id" : String) = "name") := by decide
  simp only [List.foldl_cons, List.foldl_nil, pid, pnm]
  simp [objSet, e1]

lemma parseAtomLine_malformed {i n : String}
    (hi : PlainValue i) (hn : PlainValue n) :
    parseAtomLine (malformedLine i n) = none := by
  unfold parseAtomLine
  rw [lineObject_malformed hi hn]
  have e2 : ¬ (("id" : String) = "type") := by decide
  have e3 : ¬ (("name" : String) = "type") := by decide
  simp [objGet, List.find?, e2, e3]

lemma isWS_keyTok_false {key v : String} (hkey : ∀ c ∈ key.data, isWS c = false)
    (hv : ∀ c ∈ v.data, isWS c = false) : ∀ c ∈ keyTok key v, isWS c = false := by
  intro c hc
  rcases List.mem_append.mp hc with h | h
  · exact hkey c h
  · rcases List.mem_cons.mp h with rfl | h
    · decide
    · exact hv c h

lemma renderLine_no_ws {r : ElementRecord}
    (hi : PlainValue r.id) (hn : PlainValue r.name) (ht : PlainValue r.type) :
    ∀ c ∈ renderLine r, isWS c = false := by
  intro c hc
  rcases List.mem_append.mp hc with h | h
  · exact isWS_keyTok_false (by decide) hi.2.1 c h
  · rcases List.mem_cons.mp h with rfl | h
    · decide
    · rcases List.mem_append.mp h with h | h
      · exact isWS_keyTok_false (by decide) hn.2.1 c h
      · rcases List.mem_cons.mp h with rfl | h
        · decide
        · exact isWS_keyTok_false (by decide) ht.2.1 c h

lemma malformedLine_no_ws {i n : String}
    (hi : PlainValue i) (hn : PlainValue n) :
    ∀ c ∈ malformedLine i n, isWS c = false := by
  intro c hc
  rcases List.mem_append.mp hc with h | h
  · exact isWS_keyTok_false (by decide) hi.2.1 c h
  · rcases List.mem_cons.mp h with rfl | h
    · decide
    · exact isWS_keyTok_false (by decide) hn.2.1 c h

lemma contains_of_mem {c : Char} : ∀ {l : List Char}, c ∈ l → l.contains c = true := by
  intro l h
  induction l with
  | nil => simp at h
  | cons a t ih =>
    rcases List.mem_cons.mp h with rfl | h'
    · simp [List.contains_cons]
    · simp [List.contains_cons, ih h', Or.inr h']

lemma keyTok_pipe_ne_nil {k v : String} {rest : List Char} :
    keyTok k v ++ '|' :: rest ≠ [] := by
  simp

lemma pipe_mem_after_keyTok {k v : String} {rest : List Char} :
    '|' ∈ keyTok k v ++ '|' :: rest :=
  List.mem_append.mpr (Or.inr (List.mem_cons_self _ _))

lemma processLine_renderLine {r : ElementRecord} (atoms : List ElementRecord)
    (hi : PlainValue r.id) (hn : PlainValue r.name) (ht : PlainValue r.type) :
    processLine atoms (renderLine r) = atoms ++ [r] := by
  unfold processLine
  rw [trimL_of_all_neg (renderLine_no_ws hi hn ht)]
  rw [if_pos ⟨keyTok_pipe_ne_nil, contains_of_mem pipe_mem_after_keyTok⟩,
    parseAtomLine_renderLine hi hn ht]

lemma processLine_malformed {i n : String} (atoms : List ElementRecord)
    (hi : PlainValue i) (hn : PlainValue n) :
    processLine atoms (malformedLine i n) = atoms := by
  unfold processLine
  rw [trimL_of_all_neg (malformedLine_no_ws hi hn)]
  rw [if_pos ⟨keyTok_pipe_ne_nil, contains_of_mem pipe_mem_after_keyTok⟩,
    parseAtomLine_malformed hi hn]

lemma processLine_acc (acc : List ElementRecord) (l : List Char) :
    processLine acc l = acc ++ processLine [] l := by
  unfold processLine
  by_cases h : trimL l ≠ [] ∧ (trimL l).contains '|' = true
  · rw [if_pos h, if_pos h]
    cases parseAtomLine (trimL l) <;> simp
  · rw [if_neg h, if_neg h, List.append_nil]

lemma foldl_processLine_append :
    ∀ (lines : List (List Char)) (acc : List ElementRecord),
      lines.foldl processLine acc = acc ++ lines.foldl processLine []
  | [], acc => by simp
  | l :: t, acc => by
    rw [List.foldl_cons, List.foldl_cons,
      foldl_processLine_append t (processLine acc l),
      foldl_processLine_append t (processLine [] l),
      processLine_acc acc l, List.append_assoc]

lemma foldl_map_render :
    ∀ (rs : List ElementRecord),
      (∀ r ∈ rs, PlainValue r.id ∧ PlainValue r.name ∧ PlainValue r.type) →
      (rs.map renderLine).foldl processLine [] = rs
  | [], _ => rfl
  | r :: t, h => by
    have hr := h r (List.mem_cons_self r t)
    rw [List.map_cons, List.foldl_cons, processLine_renderLine [] hr.1 hr.2.1 hr.2.2,
      foldl_processLine_append, foldl_map_render t (fun x hx => h x (List.mem_cons_of_mem r hx))]
    simp

/-- C4: a list-mode batch in which one line lacks the mandatory `type` key
decodes to one record fewer than the number of lines: the malformed line
is dropped, no exception is raised (the decoder is a total function), and
every other line still decodes. -/
theorem c4_malformed_line_dropped :
    ∀ (pre post : List ElementRecord) (i n : String),
      (∀ r ∈ pre ++ post, PlainValue r.id ∧ PlainValue r.name ∧ PlainValue r.type) →
      PlainValue i → PlainValue n →
      decodeLines (pre.map renderLine ++ malformedLine i n :: post.map renderLine) =
        pre ++ post ∧
      (decodeLines (pre.map renderLine ++ malformedLine i n :: post.map renderLine)).length + 1 =
        (pre.map renderLine ++ malformedLine i n :: post.map renderLine).length := by
  intro pre post i n h hi hn
  have hpre : ∀ r ∈ pre, PlainValue r.id ∧ PlainValue r.name ∧ PlainValue r.type :=
    fun r hr => h r (List.mem_append.mpr (Or.inl hr))
  have hpost : ∀ r ∈ post, PlainValue r.id ∧ PlainValue r.name ∧ PlainValue r.type :=
    fun r hr => h r (List.mem_append.mpr (Or.inr hr))
  have hfilter :
      (pre.map renderLine ++ malformedLine i n :: post.map renderLine).filter
        (fun l => trimL l ≠ []) =
        pre.map renderLine ++ malformedLine i n :: post.map renderLine := by
    rw [List.filter_eq_self]
    intro l hl
    rcases List.mem_append.mp hl with hm | hm
    · obtain ⟨r, hr, rfl⟩ := List.mem_map.mp hm
      have hx := hpre r hr
      rw [trimL_of_all_neg (renderLine_no_ws hx.1 hx.2.1 hx.2.2)]
      exact decide_eq_true keyTok_pipe_ne_nil
    · rcases List.mem_cons.mp hm with rfl | hm
      · rw [trimL_of_all_neg (malformedLine_no_ws hi hn)]
        exact decide_eq_true keyTok_pipe_ne_nil
      · obtain ⟨r, hr, rfl⟩ := List.mem_map.mp hm
        have hx := hpost r hr
        rw [trimL_of_all_neg (renderLine_no_ws hx.1 hx.2.1 hx.2.2)]
        exact decide_eq_true keyTok_pipe_ne_nil
  have hmain :
      decodeLines (pre.map renderLine ++ malformedLine i n :: post.map renderLine) =
        pre ++ post := by
    unfold decodeLines
    rw [hfilter, List.foldl_append, foldl_map_render pre hpre, List.foldl_cons,
      processLine_malformed pre hi hn, foldl_processLine_append,
      foldl_map_render post hpost]
  refine ⟨hmain, ?_⟩
  rw [hmain]
  simp [Nat.add_assoc, Nat.add_comm 1]

/-- Witness for C4: a concrete three-line batch whose middle line lacks the
`type` key decodes to the two well-formed records. -/
theorem c4_malformed_line_dropped_witness :
    decodeLines ([({ id := "1", name := "a", type := "button" } : ElementRecord)].map renderLine
        ++ malformedLine "2" "b" ::
        [({ id := "3", name := "c", type := "input" } : ElementRecord)].map renderLine) =
      [{ id := "1", name := "a", type := "button" },
       { id := "3", name := "c", type := "input" }] :=
  (c4_malformed_line_dropped
    [{ id := "1", name := "a", type := "button" }]
    [{ id := "3", name := "c", type := "input" }]
    "2" "b" (by decide) (by decide) (by decide)).1

/-- C5: grouping returns one group per distinct category in first-seen order;
each group's representative is the first record of its category and its
instances are all records of that category in input order; consequently
instances are non-empty, contain the representative, and re-running the
grouping yields identical output. -/
theorem c5_grouping_first_seen (atoms : List ElementRecord) :
    (groupAtomsByType atoms).map (fun g => g.type) =
      firstSeenTypes (atoms.map (fun a => a.type)) ∧
    ((groupAtomsByType atoms).map (fun g => g.type)).Nodup ∧
    (∀ g ∈ groupAtomsByType atoms,
      g.instances = atoms.filter (fun a => a.type = g.type) ∧
      (atoms.filter (fun a => a.type = g.type)).head? = some g.representative ∧
      g.instances ≠ [] ∧
      g.representative ∈ g.instances) ∧
    groupAtomsByType atoms = groupAtomsByType atoms := by
  obtain ⟨htypes, hgroups⟩ := groupAtomsByType_spec atoms
  refine ⟨htypes, ?_, ?_, rfl⟩
  · rw [htypes]
    exact firstSeenTypes_nodup _
  · intro g hg
    obtain ⟨hinst, hrep⟩ := hgroups g hg
    refine ⟨hinst, hrep, ?_, ?_⟩
    · intro hnil
      rw [hinst] at hnil
      rw [hnil] at hrep
      simp at hrep
    · rw [hinst]
      rcases hfe : atoms.filter (fun a => a.type = g.type) with _ | ⟨x, xs⟩
      · rw [hfe] at hrep; simp at hrep
      · rw [hfe] at hrep
        rw [hfe]
        simp only [List.head?_cons, Option.some.injEq] at hrep
        rw [← hrep]
        exact List.mem_cons_self x xs

/-- The allow-list resource `lib/resources/shadcn-components.md`, in file
order, as extracted by `loadShadcnComponents` (lib/utils/shadcn-loader.ts)
and `getValidShadcnComponents` (step-03 script.ts lines 11-35); both build
their set from these names. -/
def shadcnComponentsResource : List String :=
  ["accordion", "breadcrumb", "navigation-menu", "menubar", "sidebar", "tabs",
   "button", "checkbox", "combobox", "form", "input", "input-otp", "label",
   "radio-group", "select", "slider", "switch", "textarea", "toggle",
   "toggle-group", "alert", "avatar", "badge", "card", "progress", "separator",
   "skeleton", "table", "toast", "sonner", "alert-dialog", "dialog", "drawer",
   "dropdown-menu", "hover-card", "popover", "sheet", "tooltip", "context-menu",
   "calendar", "carousel", "chart", "command", "data-table", "date-picker",
   "pagination", "aspect-ratio", "collapsible", "resizable", "scroll-area",
   "typography"]

/-- The hard-coded fallback allow-list used by `getValidShadcnComponents`
when the resource file cannot be read (step-03 script.ts line 33). -/
def fallbackShadcnComponents : List String :=
  ["button", "input", "label", "badge", "avatar", "separator", "checkbox",
   "switch", "toggle"]

/-- Witness for C5: the grouping characterisation applied to the spec's §8
end-to-end record list. -/
theorem c5_grouping_first_seen_witness :
    groupAtomsByType
      [{ id := "1", name := "Button 1", type := "button" },
       { id := "2", name := "Button 2", type := "button" },
       { id := "3", name := "Icon A", type := "icon" }] =
      [{ type := "button", representative := { id := "1", name := "Button 1", type := "button" },
         instances := [{ id := "1", name := "Button 1", type := "button" },
                       { id := "2", name := "Button 2", type := "button" }] },
       { type := "icon", representative := { id := "3", name := "Icon A", type := "icon" },
         instances := [{ id := "3", name := "Icon A", type := "icon" }] }] := by
  have h := (c5_grouping_first_seen
    [{ id := "1", name := "Button 1", type := "button" },
     { id := "2", name := "Button 2", type := "button" },
     { id := "3", name := "Icon A", type := "icon" }]).2.2
  decide

/-- C6 counterexample: a decoded record whose category is in neither the
resource allow-list nor the hard-coded fallback reaches ComponentGroup
construction: a group is built for it. -/
theorem c6_offlist_category_reaches_group :
    (groupAtomsByType (identifyAtomsParse
        "---COMPONENTS---\nid:7:1|name:zzz-custom|type:zzz-custom\n---SUMMARY---\nok")).map
      (fun g => g.type) = ["zzz-custom"] ∧
    ("zzz-custom" ∉ shadcnComponentsResource ∧ "zzz-custom" ∉ fallbackShadcnComponents) :=
  ⟨by decide, by decide⟩

/-- C6 amended: the allow-list is only interpolated into the prompt text;
the DiscoverElements decoder drops no record by category, and every
discovered category — allow-listed or not — yields a ComponentGroup. -/
theorem c6_no_allowlist_enforcement :
    (∀ r : ElementRecord, PlainValue r.id → PlainValue r.name → PlainValue r.type →
      parseAtomLine (renderLine r) = some r) ∧
    (∀ atoms : List ElementRecord, ∀ t ∈ atoms.map (fun a => a.type),
      t ∈ (groupAtomsByType atoms).map (fun g => g.type)) := by
  refine ⟨fun r hi hn ht => parseAtomLine_renderLine hi hn ht, ?_⟩
  intro atoms t ht
  rw [(groupAtomsByType_spec atoms).1]
  exact (mem_firstSeenTypes _ _).mpr ht

/-- Witness for the amended C6: decoding keeps a record with a category
outside every allow-list. -/
theorem c6_no_allowlist_enforcement_witness :
    parseAtomLine (renderLine { id := "7:1", name := "zzz-custom", type := "zzz-custom" }) =
      some { id := "7:1", name := "zzz-custom", type := "zzz-custom" } :=
  c6_no_allowlist_enforcement.1 _ (by decide) (by decide) (by decide)

/-- C7 counterexample: with valid credentials and a parseable reference, a
non-2xx response from the section-identification fetch aborts the whole
run with a fatal error instead of yielding an empty stage result — a
third fatal error beyond the two the claim allows. -/
theorem c7_step2_failure_aborts :
    validateApiKeys "token" "key" = .ok () ∧
    parseUrl { pathname := "/design/abc/My-File", nodeIdParam := some "1-2" } =
      .ok { nodeId := "1:2", fileKey := "abc" } ∧
    analyze
      { figmaToken := "token", claudeApiKey := "key"
        figmaStep2 := { ok := false, status := 500, statusText := "Internal Server Error",
                        nodeDoc := none }
        claudeStep2 := .ok "", sectionsJson := fun _ => none
        figmaStep3 := fun _ => { ok := true, status := 200, statusText := "OK", nodeDoc := none }
        claudeStep3 := fun _ => .error "network"
        extractOutcome := fun _ => none }
      { pathname := "/design/abc/My-File", nodeIdParam := some "1-2" } =
      .error "Analysis failed: Figma API error: 500 Internal Server Error" :=
  ⟨rfl, rfl, rfl⟩

/-- C7 amended: missing credentials and an unparseable reference abort the
run, but so do a network failure or non-2xx response in the
section-identification stage (the step-2 fetch and the classification
call), which run outside every recovering handler; once those succeed,
failures of any later stage — atom discovery, extraction, generation —
are stage-recoverable and the run completes. -/
theorem c7_fatal_and_recoverable :
    ∀ (w : World) (url : UrlParts) (pu : ParsedUrl) (doc : FigmaNode) (content : String),
      w.figmaToken ≠ "" → w.claudeApiKey ≠ "" →
      parseUrl url = .ok pu →
      w.figmaStep2.ok = true →
      w.figmaStep2.nodeDoc = some doc →
      w.claudeStep2 = .ok content →
      ∃ report, analyze w url = .ok report := by
  intro w url pu doc content hft hck hpu hok hdoc hc2
  have h1 : validateApiKeys w.figmaToken w.claudeApiKey = .ok () := by
    unfold validateApiKeys
    rw [if_neg hft, if_neg hck]
  have h2 : getFigmaData w.figmaStep2 pu.nodeId = .ok doc := by
    unfold getFigmaData
    rw [hok, if_neg (by simp), hdoc]
  obtain ⟨secs, hsecs⟩ : ∃ s, identifySections w doc = .ok s := by
    unfold identifySections
    rw [hc2]
    simp only []
    rcases hbm : bracketMatch content.data with _ | span
    · exact ⟨basicSectionAnalysis doc, rfl⟩
    · rcases hsj : w.sectionsJson ⟨span⟩ with _ | s
      · exact ⟨basicSectionAnalysis doc, by simp only []; rw [hsj]⟩
      · exact ⟨s, by simp only []; rw [hsj]⟩
  unfold analyze analyzeTry
  rw [h1]
  simp only []
  rw [hpu]
  simp only []
  rw [h2]
  simp only []
  rw [hsecs]
  simp only []
  cases secs with
  | nil => exact ⟨_, rfl⟩
  | cons s rest => exact ⟨_, rfl⟩

lemma generateComponents_go (w : World) :
    ∀ (groups : List ComponentGroup) (acc : GenerationTrace),
      (groups.foldl
        (fun acc componentGroup =>
          let representativeAtom := componentGroup.representative
          match w.extractOutcome representativeAtom with
          | some variants =>
            { extractionCalls := acc.extractionCalls ++ [representativeAtom]
              generationCalls := acc.generationCalls ++ [representativeAtom]
              processedComponents := acc.processedComponents ++
                [createProcessedComponent componentGroup representativeAtom variants] }
          | none =>
            { acc with extractionCalls := acc.extractionCalls ++ [representativeAtom] }) acc) =
      { extractionCalls :=
          acc.extractionCalls ++ groups.map (fun g => g.representative)
        generationCalls :=
          acc.generationCalls ++ (groups.filter
            (fun g => (w.extractOutcome g.representative).isSome)).map
            (fun g => g.representative)
        processedComponents :=
          acc.processedComponents ++ (groups.filterMap
            (fun g => (w.extractOutcome g.representative).map
              (fun variants => createProcessedComponent g g.representative variants))) }
  | [], acc => by simp
  | g :: t, acc => by
    rw [List.foldl_cons]
    rcases he : w.extractOutcome g.representative with _ | variants
    · rw [generateComponents_go w t _]
      simp [he, List.filter_cons, List.filterMap_cons]
    · rw [generateComponents_go w t _]
      simp [he, List.filter_cons, List.filterMap_cons]

/-- Characterisation of the `generateComponents` loop: extraction is called
on exactly the group representatives in order, and generation exactly on
those whose extraction yielded data. -/
lemma generateComponents_spec (w : World) (groups : List ComponentGroup) :
    generateComponents w groups =
      { extractionCalls := groups.map (fun g => g.representative)
        generationCalls :=
          (groups.filter (fun g => (w.extractOutcome g.representative).isSome)).map
            (fun g => g.representative)
        processedComponents :=
          groups.filterMap
            (fun g => (w.extractOutcome g.representative).map
              (fun variants => createProcessedComponent g g.representative variants)) } := by
  unfold generateComponents
  rw [generateComponents_go w groups ⟨[], [], []⟩]
  simp

lemma rep_type_eq (atoms : List ElementRecord) :
    ∀ g ∈ groupAtomsByType atoms, g.representative.type = g.type := by
  intro g hg
  obtain ⟨hinst, hrep⟩ := (groupAtomsByType_spec atoms).2 g hg
  rcases hfe : atoms.filter (fun a => a.type = g.type) with _ | ⟨x, xs⟩
  · rw [hfe] at hrep; simp at hrep
  · rw [hfe] at hrep
    simp only [List.head?_cons, Option.some.injEq] at hrep
    have hx : x ∈ atoms.filter (fun a => a.type = g.type) := by
      rw [hfe]; exact List.mem_cons_self x xs
    have hpred := List.of_mem_filter hx
    rw [← hrep]
    exact of_decide_eq_true hpred

lemma analyze_ok_elim {w : World} {url : UrlParts} {r : RunReport}
    (h : analyze w url = .ok r) : analyzeTry w url = .ok r := by
  unfold analyze at h
  rcases ha : analyzeTry w url with e | rep
  · rw [ha] at h; simp at h
  · rw [ha] at h
    simp only [Except.ok.injEq] at h
    rw [h]

lemma analyzeTry_ok_inv {w : World} {url : UrlParts} {r : RunReport}
    (h : analyzeTry w url = .ok r) :
    (r.sections = [] ∧ r.processedSection = none) ∨
    (∃ s rest, r.sections = s :: rest ∧
      r.processedSection = some s ∧
      r.discoveredAtoms = discoverAtoms w s ∧
      r.componentGroups = groupAtomsByType (discoverAtoms w s) ∧
      r.trace = generateComponents w (groupAtomsByType (discoverAtoms w s))) := by
  unfold analyzeTry at h
  rcases hv : validateApiKeys w.figmaToken w.claudeApiKey with e | u
  · rw [hv] at h; simp at h
  · rw [hv] at h
    simp only [] at h
    rcases hp : parseUrl url with e | parsed
    · rw [hp] at h; simp at h
    · rw [hp] at h
      simp only [] at h
      rcases hg : getFigmaData w.figmaStep2 parsed.nodeId with e | pageData
      · rw [hg] at h; simp at h
      · rw [hg] at h
        simp only [] at h
        rcases hs : identifySections w pageData with e | sections
        · rw [hs] at h; simp at h
        · rw [hs] at h
          simp only [] at h
          cases sections with
          | nil =>
            simp only [Except.ok.injEq] at h
            left
            rw [← h]
            exact ⟨rfl, rfl⟩
          | cons s rest =>
            simp only [Except.ok.injEq] at h
            right
            refine ⟨s, rest, ?_⟩
            rw [← h]
            exact ⟨rfl, rfl, rfl, rfl, rfl⟩

/-- C8: in every completed run that discovered a non-empty section list, only
the first classified section is processed; extraction is invoked on
exactly one representative per distinct element category of that section,
in first-seen order with no duplicated category; and generation is
invoked on exactly those representatives whose extraction succeeded — all
of them when extraction always succeeds. -/
theorem c8_first_section_representatives :
    ∀ (w : World) (url : UrlParts) (r : RunReport) (s : Section) (rest : List Section),
      analyze w url = .ok r →
      r.sections = s :: rest →
      r.processedSection = some s ∧
      r.componentGroups = groupAtomsByType (discoverAtoms w s) ∧
      r.trace.extractionCalls = r.componentGroups.map (fun g => g.representative) ∧
      r.trace.extractionCalls.map (fun a => a.type) =
        firstSeenTypes ((discoverAtoms w s).map (fun a => a.type)) ∧
      (r.trace.extractionCalls.map (fun a => a.type)).Nodup ∧
      r.trace.generationCalls =
        (r.componentGroups.filter
          (fun g => (w.extractOutcome g.representative).isSome)).map
          (fun g => g.representative) ∧
      ((∀ g ∈ r.componentGroups, (w.extractOutcome g.representative).isSome = true) →
        r.trace.generationCalls = r.trace.extractionCalls) := by
  intro w url r s rest h hsec
  rcases analyzeTry_ok_inv (analyze_ok_elim h) with ⟨hnil, _⟩ | ⟨s', rest', hsec', hps, _, hcg, htr⟩
  · rw [hsec] at hnil; simp at hnil
  · rw [hsec] at hsec'
    injection hsec' with h1 h2
    subst h1
    subst h2
    have hcalls : r.trace.extractionCalls =
        r.componentGroups.map (fun g => g.representative) := by
      rw [htr, generateComponents_spec, hcg]
    have htypes : r.trace.extractionCalls.map (fun a => a.type) =
        firstSeenTypes ((discoverAtoms w s).map (fun a => a.type)) := by
      rw [hcalls, hcg, List.map_map]
      have hc : ∀ g ∈ groupAtomsByType (discoverAtoms w s),
          ((fun a : ElementRecord => a.type) ∘ fun g : ComponentGroup => g.representative) g =
            (fun g : ComponentGroup => g.type) g :=
        fun g hg => rep_type_eq (discoverAtoms w s) g hg
      rw [List.map_congr_left hc]
      exact (groupAtomsByType_spec (discoverAtoms w s)).1
    refine ⟨hps, hcg, hcalls, htypes, ?_, ?_, ?_⟩
    · rw [htypes]
      exact firstSeenTypes_nodup _
    · rw [htr, generateComponents_spec, hcg]
    · intro hall
      have hfe : r.componentGroups.filter
          (fun g => (w.extractOutcome g.representative).isSome) = r.componentGroups :=
        List.filter_eq_self.mpr hall
      rw [hcg] at hfe
      rw [htr, generateComponents_spec]
      simp [hfe]

/-- Concrete run for the C7 witness: step 2 succeeds, every later external
call fails. -/
def recoverWorld : World :=
  { figmaToken := "t", claudeApiKey := "k"
    figmaStep2 := { ok := true, status := 200, statusText := "OK",
                    nodeDoc := some { id := "0:1", name := some "Page", children := [] } }
    claudeStep2 := .ok "no json here", sectionsJson := fun _ => none
    figmaStep3 := fun _ => { ok := false, status := 500, statusText := "ISE", nodeDoc := none }
    claudeStep3 := fun _ => .error "network failure"
    extractOutcome := fun _ => none }

/-- Witness for the amended C7: a run whose step-2 calls succeed but whose
discovery fetch, discovery completion call, and extraction all fail still
completes. -/
theorem c7_fatal_and_recoverable_witness :
    (analyze recoverWorld { pathname := "/design/abc/x", nodeIdParam := some "0-1" }).map
      (fun _ => ()) = .ok () := by
  obtain ⟨r, hr⟩ := c7_fatal_and_recoverable recoverWorld
    { pathname := "/design/abc/x", nodeIdParam := some "0-1" }
    { nodeId := "0:1", fileKey := "abc" }
    { id := "0:1", name := some "Page", children := [] } "no json here"
    (by decide) (by decide) rfl rfl rfl rfl
  rw [hr]
  rfl

/-- Concrete run for the C8 witness: one classified section whose discovery
yields two buttons and one input, with extraction succeeding
everywhere. -/
def boundedWorld : World :=
  { figmaToken := "t", claudeApiKey := "k"
    figmaStep2 := { ok := true, status := 200, statusText := "OK",
                    nodeDoc := some { id := "0:1", name := some "Page",
                                      children := [{ id := "9:9", name := some "Sec",
                                                     children := [] }] } }
    claudeStep2 := .ok "no json", sectionsJson := fun _ => none
    figmaStep3 := fun _ => { ok := true, status := 200, statusText := "OK",
                             nodeDoc := some { id := "9:9", name := some "Sec",
                                               children := [] } }
    claudeStep3 := fun _ => .ok
      "---COMPONENTS---\nid:1|name:a|type:button\nid:2|name:b|type:button\nid:3|name:c|type:input\n---SUMMARY---\nok"
    extractOutcome := fun _ => some [] }

/-- Witness for C8: the concrete bounded-work run processes the single
classified section and sends exactly the two first-seen representatives —
one per distinct category — to extraction and, extraction succeeding
everywhere, the same two to generation. -/
theorem c8_first_section_representatives_witness :
    (analyze boundedWorld { pathname := "/x/y/z", nodeIdParam := some "0-1" }).map
      (fun r => (r.processedSection, r.trace.extractionCalls, r.trace.generationCalls)) =
      .ok (some { id := "9:9", name := "Sec", type := "section" },
        [{ id := "1", name := "a", type := "button" },
         { id := "3", name := "c", type := "input" }],
        [{ id := "1", name := "a", type := "button" },
         { id := "3", name := "c", type := "input" }]) := by
  have h0 : (analyze boundedWorld { pathname := "/x/y/z", nodeIdParam := some "0-1" }).map
      (fun r => r.sections) = .ok [{ id := "9:9", name := "Sec", type := "section" }] := by rfl
  rcases ha : analyze boundedWorld { pathname := "/x/y/z", nodeIdParam := some "0-1" } with e | r
  · rw [ha] at h0
    simp [Except.map] at h0
  · rw [ha] at h0
    simp only [Except.map, Except.ok.injEq] at h0
    have h := c8_first_section_representatives boundedWorld
      { pathname := "/x/y/z", nodeIdParam := some "0-1" } r
      { id := "9:9", name := "Sec", type := "section" } [] ha (by rw [h0])
    have hd : discoverAtoms boundedWorld { id := "9:9", name := "Sec", type := "section" } =
        [{ id := "1", name := "a", type := "button" },
         { id := "2", name := "b", type := "button" },
         { id := "3", name := "c", type := "input" }] := by rfl
    have hext : r.trace.extractionCalls =
        [{ id := "1", name := "a", type := "button" },
         { id := "3", name := "c", type := "input" }] := by
      rw [h.2.2.1, h.2.1, hd]
      rfl
    have hgen : r.trace.generationCalls = r.trace.extractionCalls :=
      h.2.2.2.2.2.2 (fun g _ => rfl)
    simp [Except.map, h.1, hext, hgen]

/-- The dichotomy claimed for generation-mode results: either skipped with
all generation fields absent, or not skipped with a non-empty artifact
body present. -/
def GenerationResultDichotomy (r : ComponentGenerationResult) : Prop :=
  (r.skipImplementation = some true ∧ r.componentCode = none ∧ r.updatedCSS = none ∧
    r.usageExample = none) ∨
  (r.skipImplementation = some false ∧ r.componentCode ≠ none ∧ r.componentCode ≠ some "")

instance (r : ComponentGenerationResult) : Decidable (GenerationResultDichotomy r) := by
  unfold GenerationResultDichotomy
  infer_instance

/-- C9 counterexample: a delimiter-format reply with a non-true skip flag and
no `---COMPONENT---` section decodes to `skipped = false` with an *empty*
component code — the artifact body is absent on the non-skip path, so the
claimed dichotomy fails. -/
theorem c9_nonskip_empty_artifact :
    (parseDelimiterFormat "---SKIP---\nfalse").skipImplementation = some false ∧
    (parseDelimiterFormat "---SKIP---\nfalse").componentCode = some "" ∧
    ¬ GenerationResultDichotomy (parseDelimiterFormat "---SKIP---\nfalse") :=
  ⟨by decide, by decide, by decide⟩

/-- C9 amended: on the delimiter path the decoder yields exactly one of two
shapes — the fixed skip record (skipped, fixed reason, no generation
fields), or a non-skip record whose `componentCode` is the extracted
section text, which is the *empty string* when the reply lacks a
component section, so an artifact body is not guaranteed; the error
fallback of the generation stage yields the skip shape with a failure
reason. (The JSON fallback returns the reply's object unvalidated.) -/
theorem c9_generation_result_states :
    (∀ content : String,
      parseDelimiterFormat content =
        { skipImplementation := some true, reason := some "Skipped as requested in response"
          componentCode := none, updatedCSS := none, colorMapping := none
          usageExample := none, notes := none } ∨
      ((parseDelimiterFormat content).skipImplementation = some false ∧
        (parseDelimiterFormat content).componentCode =
          some (extractSection content "COMPONENT" ["CSS", "MAPPING"]) ∧
        (parseDelimiterFormat content).reason = none)) ∧
    (∀ (jsonParse : String → Option ComponentGenerationResult) (e : String),
      generateComponentWithClaude jsonParse (.error e) =
        { skipImplementation := some true, reason := some ("AI generation failed: " ++ e)
          componentCode := none, updatedCSS := none, colorMapping := none
          usageExample := none, notes := none }) := by
  constructor
  · intro content
    unfold parseDelimiterFormat
    by_cases hs : shouldSkip content = true
    · left
      rw [if_pos hs]
    · right
      rw [if_neg hs]
      exact ⟨rfl, rfl, rfl⟩
  · intro jsonParse e
    rfl

/-- C10: `parseUrl` replaces only the first dash of the `node-id` parameter
(`node-id=1-2-3` yields `1:2-3`), and accepts any URL whose path splits
into a third slash-separated piece, which becomes the file key regardless
of the rest of the path. -/
theorem c10_parseurl_first_dash :
    (∀ a b : List Char, '-' ∉ a →
      replaceFirstChar '-' ':' (a ++ '-' :: b) = a ++ ':' :: b) ∧
    parseUrl { pathname := "/design/abc123/My-File", nodeIdParam := some "1-2-3" } =
      .ok { nodeId := "1:2-3", fileKey := "abc123" } ∧
    (∀ (s0 s1 fk tail : List Char) (nid : String),
      '/' ∉ s0 → '/' ∉ s1 → '/' ∉ fk → fk ≠ [] →
      (⟨replaceFirstChar '-' ':' nid.data⟩ : String) ≠ "" →
      parseUrl { pathname := ⟨s0 ++ '/' :: (s1 ++ '/' :: (fk ++ '/' :: tail))⟩
                 nodeIdParam := some nid } =
        .ok { nodeId := ⟨replaceFirstChar '-' ':' nid.data⟩, fileKey := ⟨fk⟩ } ∧
      parseUrl { pathname := ⟨s0 ++ '/' :: (s1 ++ '/' :: fk)⟩, nodeIdParam := some nid } =
        .ok { nodeId := ⟨replaceFirstChar '-' ':' nid.data⟩, fileKey := ⟨fk⟩ }) := by
  refine ⟨?_, rfl, ?_⟩
  · intro a b ha
    induction a with
    | nil => simp [replaceFirstChar]
    | cons c t ih =>
      have hc : ¬ (c = '-') := fun hcc => ha (hcc ▸ List.mem_cons_self c t)
      simp only [List.cons_append, replaceFirstChar, if_neg hc]
      exact congrArg (fun l => c :: l) (ih (fun hm => ha (List.mem_cons_of_mem c hm)))
  · intro s0 s1 fk tail nid h0 h1 h2 hfkne hnidne
    have hcond : ¬ ((⟨replaceFirstChar '-' ':' nid.data⟩ : String) = "" ∨ fk = []) := by
      rintro (hc | hc)
      · exact hnidne hc
      · exact hfkne hc
    constructor
    · unfold parseUrl
      simp only []
      rw [jsSplit_append_sep _ h0, jsSplit_append_sep _ h1, jsSplit_append_sep _ h2]
      simp only [Option.map, List.get?]
      rw [if_neg hcond]
    · unfold parseUrl
      simp only []
      rw [jsSplit_append_sep _ h0, jsSplit_append_sep _ h1, jsSplit_no_sep h2]
      simp only [Option.map, List.get?]
      rw [if_neg hcond]

/-- Witness for C10: the general statements applied at the concrete URL
`https://figma.com/design/KEY/a-b-c?node-id=9-8-7`. -/
theorem c10_parseurl_first_dash_witness :
    replaceFirstChar '-' ':' ("9".data ++ '-' :: "8-7".data) = "9".data ++ ':' :: "8-7".data ∧
    parseUrl { pathname := ⟨"".data ++ '/' :: ("design".data ++ '/' :: ("KEY".data ++ '/' ::
        "a-b-c".data))⟩, nodeIdParam := some "9-8-7" } =
      .ok { nodeId := ⟨replaceFirstChar '-' ':' "9-8-7".data⟩, fileKey := ⟨"KEY".data⟩ } :=
  ⟨c10_parseurl_first_dash.1 "9".data "8-7".data (by decide),
   (c10_parseurl_first_dash.2.2 "".data "design".data "KEY".data "a-b-c".data "9-8-7"
      (by decide) (by decide) (by decide) (by decide) (by decide)).1⟩

end FigmaToAtomic
